import Mathlib

/-!
Shallow embedding of src/expression/heterosis.py (rice heterosis count-file
pipeline).  The embedding follows the Python source line by line:

* a count file is modeled, after the source's `row.split()`, as a
  `List (List String)` of whitespace-separated field rows;
* `RiceSample.__init__` becomes `mkRiceSample`, returning `none` where the
  Python constructor raises (`IndexError`, `ValueError` from `split`/`int`,
  tuple-unpack failure of `zip(*data)`);
* numpy `int32` arithmetic is modeled on `Int` with an explicit wrap `wrap32`;
* `RiceSample.merge` mutates `self`; it is modeled as a function returning the
  updated surviving record together with a success flag (`false` where the
  Python `assert` raises, in which case only the statements executed before
  the failing assert have taken effect);
* the family-grouping phase of `prepare` becomes `familyPhase`, mapping the
  merged database to the list of written artifacts; `defaultdict` lookups are
  `lookupDB`, returning `[]` for a missing key exactly as the source does.
-/

namespace Heterosis

/-- Two's-complement wrap of an integer to signed 32 bits, matching numpy
`int32` arithmetic. -/
def wrap32 (x : Int) : Int :=
  (x + 2147483648) % 4294967296 - 2147483648

/-- Value of a decimal digit character, `none` for a non-digit. -/
def digitVal (c : Char) : Option Nat :=
  if c.isDigit then some (c.toNat - '0'.toNat) else none

/-- Accumulating decimal parse over a digit list. -/
def parseDigitsAux : List Char → Nat → Option Nat
  | [], acc => some acc
  | c :: cs, acc =>
    match digitVal c with
    | some d => parseDigitsAux cs (acc * 10 + d)
    | none => none

/-- Decimal parse of a nonempty all-digit character list. -/
def parseDigits (cs : List Char) : Option Nat :=
  match cs with
  | [] => none
  | _ => parseDigitsAux cs 0

/-- Remove trailing whitespace characters. -/
def rstripWs : List Char → List Char
  | [] => []
  | c :: cs =>
    match rstripWs cs with
    | [] => if c.isWhitespace then [] else [c]
    | r => c :: r

/-- Sign-and-digits parse on a whitespace-stripped character list. -/
def pyIntAux (cs : List Char) : Option Int :=
  match cs with
  | [] => none
  | c :: ds =>
    if c = '-' then (parseDigits ds).map (fun n => -(n : Int))
    else if c = '+' then (parseDigits ds).map (fun n => (n : Int))
    else (parseDigits (c :: ds)).map (fun n => (n : Int))

/-- Model of Python `int(s)`: strip surrounding whitespace, optional sign,
then a nonempty run of decimal digits; `none` where `int` raises
`ValueError`. -/
def pyInt (s : String) : Option Int :=
  pyIntAux (rstripWs (s.toList.dropWhile Char.isWhitespace))

/-- The `family` attribute: the string sentinel `"Recur"` for a recurrent
parent, or the integer family number. -/
inductive FamilyId where
  | recur : FamilyId
  | num : Int → FamilyId
  deriving DecidableEq

/-- Classification block of `RiceSample.__init__` (source lines 40-51):
given `ind`, produce `(label, P1, P2, family)`, or `none` where the source
raises (`IndexError` on empty `ind`, `ValueError` from `int`). -/
def classify (ind : String) : Option (String × String × String × FamilyId) :=
  if ind = "CS48" ∨ ind = "CS66" then
    some ("P1", "na", "na", FamilyId.recur)
  else
    match ind.toList with
    | [] => none
    | c :: rest =>
      if c = 'F' ∨ c = 'C' then
        match pyInt (String.mk rest) with
        | some n =>
          some ("F1", if c = 'F' then "CS48" else "CS66", String.mk rest, FamilyId.num n)
        | none => none
      else
        match pyInt ind with
        | some n => some ("P2", "na", "na", FamilyId.num n)
        | none => none

/-- Length of Python `zip(*cols)`: the minimum list length, `0` for no
columns. -/
def zipLen {α : Type} : List (List α) → Nat
  | [] => 0
  | [c] => c.length
  | c :: cs => min c.length (zipLen cs)

/-- Python `zip(*cols)` on string columns: truncating transpose. -/
def pyZip (cols : List (List String)) : List (List String) :=
  (List.range (zipLen cols)).map (fun i => cols.map (fun c => c.getD i ""))

/-- Parse every string of a list as an integer and wrap to `int32`, modeling
`np.array(xs, dtype=np.int32)`; `none` if any entry is not an integer. -/
def parseInts : List String → Option (List Int)
  | [] => some []
  | s :: rest =>
    match pyInt s, parseInts rest with
    | some n, some ns => some (wrap32 n :: ns)
    | _, _ => none

/-- Count-matrix block of `RiceSample.__init__` (source lines 53-56):
`self.header, self.data = zip(*data)` succeeds only when the transpose has
exactly two components; then the second component is converted to an `int32`
array. -/
def parseCounts (rows : List (List String)) : Option (List String × List Int) :=
  match pyZip rows with
  | [h, d] =>
    match parseInts d with
    | some cnts => some (h, cnts)
    | none => none
  | _ => none

/-- A parsed (or merged) count-file record, mirroring the attributes set by
`RiceSample.__init__`. -/
structure RiceSample where
  filename : String
  shortname : String
  tissue : Char
  ind : String
  rep : String
  label : String
  P1 : String
  P2 : String
  family : FamilyId
  header : List String
  data : List Int
  working : Bool
  deriving DecidableEq

/-- Python `s.split(c)` for a single-character separator, on character
lists. -/
def splitOnChar (c : Char) : List Char → List (List Char)
  | [] => [[]]
  | x :: xs =>
    let r := splitOnChar c xs
    if x = c then [] :: r
    else
      match r with
      | [] => [[x]]
      | y :: ys => (x :: y) :: ys

/-- Filename portion of `RiceSample.__init__` (source lines 35-39): basename,
first underscore field, split the token on the dash into name and replicate,
first character of the name is the tissue.  Produces
`(shortname, tissue, ind, rep)`, or `none` where the source raises. -/
def parseName (filename : String) : Option (String × Char × String × String) :=
  let baseCs := (splitOnChar '/' filename.toList).getLastD []
  let shortCs := (splitOnChar '_' baseCs).headD []
  match splitOnChar '-' shortCs with
  | [nmCs, repCs] =>
    match nmCs with
    | [] => none
    | t :: indCs => some (String.mk shortCs, t, String.mk indCs, String.mk repCs)
  | _ => none

/-- `RiceSample.__init__`: parse the filename, classify the individual code,
parse the count rows; `none` wherever the Python constructor raises. -/
def mkRiceSample (filename : String) (rows : List (List String)) : Option RiceSample :=
  match parseName filename with
  | none => none
  | some (short, t, ind, rep) =>
    match classify ind with
    | none => none
    | some q =>
      match parseCounts rows with
      | none => none
      | some hd =>
        some { filename := filename, shortname := short, tissue := t, ind := ind,
               rep := rep, label := q.1, P1 := q.2.1, P2 := q.2.2.1, family := q.2.2.2,
               header := hd.1, data := hd.2, working := true }

/-- The conjunction of the eight `assert` conditions of `RiceSample.merge`. -/
def CanMerge (a b : RiceSample) : Prop :=
  a.tissue = b.tissue ∧ a.ind = b.ind ∧ a.rep = b.rep ∧ a.label = b.label ∧
  a.family = b.family ∧ a.P1 = b.P1 ∧ a.P2 = b.P2 ∧ a.header = b.header

instance (a b : RiceSample) : Decidable (CanMerge a b) := by
  unfold CanMerge; infer_instance

/-- `RiceSample.merge` (source lines 64-75).  The filename is concatenated
first; the asserts run next; the `int32` data sum happens last.  The result
is the surviving record paired with `true` on success, or, paired with
`false`, the record as it stands when an assert fires: filename already
extended, data untouched. -/
def RiceSample.merge (a b : RiceSample) : RiceSample × Bool :=
  let a1 := { a with filename := a.filename ++ "," ++ b.filename }
  if CanMerge a b then
    ({ a1 with data := List.zipWith (fun x y => wrap32 (x + y)) a.data b.data }, true)
  else
    (a1, false)

/-- Python `sep.join(xs)`. -/
def joinSep (sep : String) : List String → String
  | [] => ""
  | [x] => x
  | x :: xs => x ++ sep ++ joinSep sep xs

/-- `merge_counts` (source lines 87-95), modeled as the list of lines written
to the matrix file: a header line, then the truncating transpose of the first
sample's gene column and every sample's count column.  There is no gene-id
consistency check anywhere in this function. -/
def mergeCountsLines : List RiceSample → List String
  | [] => []
  | s0 :: rest =>
    let ss := s0 :: rest
    let headerLine := joinSep "\t" ("Gene" :: ss.map (fun s => s.shortname))
    let cols := s0.header :: ss.map (fun s => s.data.map (fun v => toString v))
    headerLine :: (pyZip cols).map (fun r => joinSep "\t" r)

/-- The merged sample database `countsdb`, as the sorted association list the
family loop iterates over. -/
abbrev DB : Type := List ((Char × String) × List RiceSample)

/-- `countsdb[(tissue, code)]` with `defaultdict(list)` semantics: a missing
key yields the empty list. -/
def lookupDB : DB → (Char × String) → List RiceSample
  | [], _ => []
  | e :: rest, k => if e.1 = k then e.2 else lookupDB rest k

/-- The artifacts written for one family: output key, ordered sample list,
group labels, matrix-file lines and groups-file line. -/
structure FamilyOut where
  key : String
  samples : List RiceSample
  groups : List Nat
  matrix : List String
  groupsLine : String
  deriving DecidableEq

/-- One iteration of the family loop of `prepare` (source lines 136-151):
skip non-hybrid groups, look both parents up with `defaultdict` semantics,
and assemble the written artifacts. -/
def familyStep (db : DB) : ((Char × String) × List RiceSample) → Option FamilyOut
  | ((_, _), []) => none
  | ((t, i), r0 :: rest) =>
    if r0.label = "F1" then
      let p1 := lookupDB db (t, r0.P1)
      let p2 := lookupDB db (t, r0.P2)
      let r := r0 :: rest
      let groups := List.replicate p1.length 1 ++ List.replicate p2.length 2 ++
        List.replicate r.length 3
      some { key := t.toString ++ "-" ++ i,
             samples := p1 ++ p2 ++ r,
             groups := groups,
             matrix := mergeCountsLines (p1 ++ p2 ++ r),
             groupsLine := joinSep "," (groups.map (fun g => toString g)) }
    else none

/-- The family-grouping phase of `prepare`: every processed group's written
artifacts, in iteration order. -/
def familyPhase (db : DB) : List FamilyOut :=
  List.filterMap (familyStep db) db

/-- The database invariant established by the parsing loop of `prepare`:
every record is stored under its own `(tissue, ind)` key, and its
classification fields are the ones `classify` derives from its `ind`. -/
def wfDB (db : DB) : Prop :=
  ∀ e ∈ db, ∀ s ∈ e.2, s.tissue = e.1.1 ∧ s.ind = e.1.2 ∧
    classify s.ind = some (s.label, s.P1, s.P2, s.family)

/-! Helper lemmas. -/

theorem wrap32_eq_self {x : Int} (hlo : -2147483648 ≤ x) (hhi : x < 2147483648) :
    wrap32 x = x := by
  unfold wrap32
  omega

theorem rstripWs_cons {c : Char} {cs : List Char} (hw : c.isWhitespace = false) :
    rstripWs (c :: cs) = c :: rstripWs cs := by
  cases h : rstripWs cs <;> simp [rstripWs, h, hw]

theorem pyInt_eq_none_of_head {s : String} {c : Char} {rest : List Char}
    (hs : s.toList = c :: rest) (hw : c.isWhitespace = false)
    (hm : ¬c = '-') (hp : ¬c = '+') (hd : c.isDigit = false) :
    pyInt s = none := by
  unfold pyInt
  rw [hs, List.dropWhile_cons]
  simp only [hw, Bool.false_eq_true, if_false]
  rw [rstripWs_cons hw]
  simp [pyIntAux, hm, hp, parseDigits, parseDigitsAux, digitVal, hd]

theorem pyInt_eq_none_of_nil {s : String} (hs : s.toList = []) : pyInt s = none := by
  unfold pyInt
  rw [hs]
  rfl

theorem pyInt_CS48 : pyInt "CS48" = none := by decide

theorem pyInt_CS66 : pyInt "CS66" = none := by decide

theorem classify_CS48 : classify "CS48" = some ("P1", "na", "na", FamilyId.recur) := by decide

theorem classify_CS66 : classify "CS66" = some ("P1", "na", "na", FamilyId.recur) := by decide

/-- If `int(ind)` succeeds, the classification necessarily lands in the
`Parent2` branch: the recurrent-parent codes and hybrid-marker heads are not
parseable integers. -/
theorem classify_P2_of_pyInt {ind : String} {n : Int} (h : pyInt ind = some n) :
    classify ind = some ("P2", "na", "na", FamilyId.num n) := by
  have h48 : ¬ind = "CS48" := by
    rintro rfl; rw [pyInt_CS48] at h; exact Option.noConfusion h
  have h66 : ¬ind = "CS66" := by
    rintro rfl; rw [pyInt_CS66] at h; exact Option.noConfusion h
  cases hcs : ind.toList with
  | nil => rw [pyInt_eq_none_of_nil hcs] at h; exact Option.noConfusion h
  | cons c rest =>
    have hcF : ¬c = 'F' := by
      rintro rfl
      rw [pyInt_eq_none_of_head hcs (by decide) (by decide) (by decide) (by decide)] at h
      exact Option.noConfusion h
    have hcC : ¬c = 'C' := by
      rintro rfl
      rw [pyInt_eq_none_of_head hcs (by decide) (by decide) (by decide) (by decide)] at h
      exact Option.noConfusion h
    have hcs' : ind.data = c :: rest := hcs
    simp [classify, hcs', h48, h66, hcF, hcC, h]

/-- Inversion of the hybrid branch of `classify`. -/
theorem classify_F1_inv {ind : String} {p1 p2 : String} {fam : FamilyId}
    (h : classify ind = some ("F1", p1, p2, fam)) :
    (p1 = "CS48" ∨ p1 = "CS66") ∧ ∃ n, pyInt p2 = some n ∧ fam = FamilyId.num n := by
  unfold classify at h
  split at h
  · simp at h
  · split at h
    · exact Option.noConfusion h
    · rename_i c rest _
      split at h
      · split at h
        · rename_i n hn
          simp only [Option.some.injEq, Prod.mk.injEq] at h
          obtain ⟨-, hp1, hp2, hfam⟩ := h
          refine ⟨?_, n, ?_, hfam.symm⟩
          · rcases hp1.symm ▸ (by split <;> simp : (if c = 'F' then "CS48" else "CS66") = "CS48" ∨
              (if c = 'F' then "CS48" else "CS66") = "CS66") with h' | h'
            · exact Or.inl h'
            · exact Or.inr h'
          · rw [← hp2]; exact hn
        · exact Option.noConfusion h
      · split at h
        · simp at h
        · exact Option.noConfusion h

theorem lookupDB_mem {db : DB} {k : Char × String} {s : RiceSample}
    (h : s ∈ lookupDB db k) : ∃ e, e ∈ db ∧ e.1 = k ∧ s ∈ e.2 := by
  induction db with
  | nil => simp [lookupDB] at h
  | cons e rest ih =>
    rw [lookupDB] at h
    split at h
    · exact ⟨e, List.mem_cons_self e rest, by assumption, h⟩
    · obtain ⟨e', he', hk, hs⟩ := ih h
      exact ⟨e', List.mem_cons_of_mem e he', hk, hs⟩

theorem parseInts_length : ∀ {l : List String} {ns : List Int},
    parseInts l = some ns → ns.length = l.length := by
  intro l
  induction l with
  | nil => intro ns h; simp [parseInts] at h; simp [← h]
  | cons s rest ih =>
    intro ns h
    rw [parseInts] at h
    split at h
    · rename_i n ns' _ _
      obtain rfl := (Option.some.injEq _ _).mp h
      simp [ih (by assumption)]
    · exact Option.noConfusion h

theorem zipLen_le_of_mem {α : Type} : ∀ {rows : List (List α)} {r : List α},
    r ∈ rows → zipLen rows ≤ r.length := by
  intro rows
  induction rows with
  | nil => intro r h; simp at h
  | cons c cs ih =>
    intro r h
    cases cs with
    | nil =>
      rcases List.mem_cons.mp h with rfl | h'
      · simp [zipLen]
      · simp at h'
    | cons c' cs' =>
      rcases List.mem_cons.mp h with rfl | h'
      · exact le_trans (Nat.min_le_left _ _) (le_refl _)
      · exact le_trans (Nat.min_le_right _ _) (ih h')

theorem zipLen_const {α : Type} {n : Nat} : ∀ {cols : List (List α)},
    cols ≠ [] → (∀ c ∈ cols, c.length = n) → zipLen cols = n := by
  intro cols
  induction cols with
  | nil => intro h; exact absurd rfl h
  | cons c cs ih =>
    intro _ hall
    cases cs with
    | nil => simpa [zipLen] using hall c (List.mem_singleton.mpr rfl)
    | cons c' cs' =>
      have h1 : c.length = n := hall c (List.mem_cons_self _ _)
      have h2 : zipLen (c' :: cs') = n :=
        ih (by simp) (fun x hx => hall x (List.mem_cons_of_mem _ hx))
      show min c.length (zipLen (c' :: cs')) = n
      rw [h1, h2, Nat.min_self]

theorem pyZip_length (cols : List (List String)) : (pyZip cols).length = zipLen cols := by
  simp [pyZip]

theorem pyZip_eq_two {cols : List (List String)} (hl : zipLen cols = 2) :
    pyZip cols = [cols.map (fun c => c.getD 0 ""), cols.map (fun c => c.getD 1 "")] := by
  rw [pyZip, hl]
  rfl

theorem getD_zipWith (f : Int → Int → Int) : ∀ (l1 l2 : List Int) (i : Nat),
    i < l1.length → i < l2.length →
    (List.zipWith f l1 l2).getD i 0 = f (l1.getD i 0) (l2.getD i 0) := by
  intro l1
  induction l1 with
  | nil => intro l2 i h1 _; simp at h1
  | cons x xs ih =>
    intro l2 i h1 h2
    cases l2 with
    | nil => simp at h2
    | cons y ys =>
      cases i with
      | zero => simp
      | succ j =>
        simp only [List.zipWith_cons_cons, List.getD_cons_succ]
        exact ih ys j (by simpa using h1) (by simpa using h2)

theorem getD_map_toString : ∀ (l : List Int) (i : Nat), i < l.length →
    (l.map (fun v => toString v)).getD i "" = toString (l.getD i 0) := by
  intro l
  induction l with
  | nil => intro i h; simp at h
  | cons x xs ih =>
    intro i h
    cases i with
    | zero => simp
    | succ j => simpa using ih j (by simpa using h)

theorem pairwise_le_replicate (v m : Nat) :
    List.Pairwise (fun x y => x ≤ y) (List.replicate m v) := by
  induction m with
  | zero => simp
  | succ k ih =>
    rw [List.replicate_succ]
    exact List.Pairwise.cons (fun b hb => le_of_eq (List.eq_of_mem_replicate hb).symm) ih

theorem sorted_groups (m n k : Nat) :
    List.Sorted (fun x y => x ≤ y)
      (List.replicate m 1 ++ List.replicate n 2 ++ List.replicate k 3) := by
  rw [List.Sorted, List.append_assoc, List.pairwise_append, List.pairwise_append]
  refine ⟨pairwise_le_replicate 1 m, ⟨pairwise_le_replicate 2 n, pairwise_le_replicate 3 k, ?_⟩, ?_⟩
  · intro a ha b hb
    rw [List.eq_of_mem_replicate ha, List.eq_of_mem_replicate hb]
    omega
  · intro a ha b hb
    rw [List.eq_of_mem_replicate ha]
    rcases List.mem_append.mp hb with h' | h' <;>
      rw [List.eq_of_mem_replicate h'] <;> omega

theorem merge_filename (a b : RiceSample) :
    (a.merge b).1.filename = a.filename ++ "," ++ b.filename := by
  by_cases h : CanMerge a b
  · rw [RiceSample.merge, if_pos h]
  · rw [RiceSample.merge, if_neg h]

theorem merge_snd_iff (a b : RiceSample) : (a.merge b).2 = true ↔ CanMerge a b := by
  by_cases h : CanMerge a b
  · rw [RiceSample.merge, if_pos h]; simpa using h
  · rw [RiceSample.merge, if_neg h]; simpa using h

theorem merge_data_pos {a b : RiceSample} (h : CanMerge a b) :
    (a.merge b).1.data = List.zipWith (fun x y => wrap32 (x + y)) a.data b.data := by
  rw [RiceSample.merge, if_pos h]

theorem merge_data_neg {a b : RiceSample} (h : ¬CanMerge a b) :
    (a.merge b).1.data = a.data := by
  rw [RiceSample.merge, if_neg h]

theorem canMerge_symm {a b : RiceSample} (h : CanMerge a b) : CanMerge b a := by
  obtain ⟨h1, h2, h3, h4, h5, h6, h7, h8⟩ := h
  exact ⟨h1.symm, h2.symm, h3.symm, h4.symm, h5.symm, h6.symm, h7.symm, h8.symm⟩

theorem zipWith_wrapAdd_comm : ∀ (l1 l2 : List Int),
    List.zipWith (fun x y => wrap32 (x + y)) l1 l2 =
    List.zipWith (fun x y => wrap32 (x + y)) l2 l1 := by
  intro l1
  induction l1 with
  | nil => intro l2; cases l2 <;> rfl
  | cons x xs ih =>
    intro l2
    cases l2 with
    | nil => rfl
    | cons y ys => simp [List.zipWith_cons_cons, Int.add_comm x y, ih ys]

/-- Inversion of a successful count parse: the transpose had exactly two
components, the header is the column of first fields, and header, data and
row list all have the same length. -/
theorem parseCounts_some_inv {rows : List (List String)} {h : List String} {d : List Int}
    (hp : parseCounts rows = some (h, d)) :
    zipLen rows = 2 ∧ h = rows.map (fun r => r.getD 0 "") ∧
    h.length = rows.length ∧ d.length = rows.length := by
  rw [parseCounts] at hp
  split at hp
  · rename_i h' d' hzip
    split at hp
    · rename_i cnts hcnts
      have hhd : h' = h ∧ cnts = d := by simpa using hp
      have hlen2 : zipLen rows = 2 := by
        have hl := congrArg List.length hzip
        rw [pyZip_length] at hl
        simpa using hl
      have hform := pyZip_eq_two hlen2
      rw [hzip] at hform
      have hh : h' = rows.map (fun r => r.getD 0 "") ∧ d' = rows.map (fun r => r.getD 1 "") := by
        simpa using hform
      refine ⟨hlen2, ?_, ?_, ?_⟩
      · rw [← hhd.1, hh.1]
      · rw [← hhd.1, hh.1, List.length_map]
      · rw [← hhd.2, parseInts_length hcnts, hh.2, List.length_map]
    · exact Option.noConfusion hp
  · exact Option.noConfusion hp

theorem parseCounts_nil : parseCounts [] = none := rfl

/-- Inversion of a successful record parse: the header and data come from a
successful `parseCounts` of the rows. -/
theorem mkRiceSample_some_inv {f : String} {rows : List (List String)} {s : RiceSample}
    (h : mkRiceSample f rows = some s) :
    ∃ hd, parseCounts rows = some hd ∧ s.header = hd.1 ∧ s.data = hd.2 := by
  rw [mkRiceSample] at h
  split at h
  · exact Option.noConfusion h
  · split at h
    · exact Option.noConfusion h
    · split at h
      · exact Option.noConfusion h
      · rename_i hd hpc
        obtain rfl := (Option.some.injEq _ _).mp h
        exact ⟨hd, hpc, rfl, rfl⟩

theorem mkRiceSample_nil (f : String) : mkRiceSample f [] = none := by
  rw [mkRiceSample]
  split
  · rfl
  · split
    · rfl
    · split
      · rfl
      · rename_i hd hpc
        rw [parseCounts_nil] at hpc
        exact Option.noConfusion hpc

theorem parseInts_eq_none_iff : ∀ (l : List String),
    parseInts l = none ↔ ∃ s ∈ l, pyInt s = none := by
  intro l
  induction l with
  | nil => simp [parseInts]
  | cons s rest ih =>
    cases hps : pyInt s with
    | none =>
      simp only [parseInts, hps]
      constructor
      · intro _; exact ⟨s, List.mem_cons_self _ _, hps⟩
      · intro _; trivial
    | some n =>
      cases hpr : parseInts rest with
      | none =>
        simp only [parseInts, hps, hpr]
        constructor
        · intro _
          obtain ⟨s', hs', hn⟩ := ih.mp hpr
          exact ⟨s', List.mem_cons_of_mem _ hs', hn⟩
        · intro _; trivial
      | some ns =>
        simp only [parseInts, hps, hpr]
        constructor
        · intro h; exact Option.noConfusion h
        · rintro ⟨s', hs', hn⟩
          rcases List.mem_cons.mp hs' with rfl | hmem
          · rw [hps] at hn; exact Option.noConfusion hn
          · have h' : parseInts rest = none := ih.mpr ⟨s', hmem, hn⟩
            rw [hpr] at h'; exact Option.noConfusion h'

/-! Concrete records used by the counterexamples and witnesses below.  Each is
the exact value `mkRiceSample` produces for the stated file, as certified
inside the theorems that use it. -/

/-- Parsed recurrent-parent file `LCS48-1_x.count` with one gene count. -/
def cexP1 : RiceSample :=
  { filename := "LCS48-1_x.count", shortname := "LCS48-1", tissue := 'L', ind := "CS48",
    rep := "1", label := "P1", P1 := "na", P2 := "na", family := FamilyId.recur,
    header := ["g1"], data := [5], working := true }

/-- Parsed hybrid file `LF18-1_x.count` with one gene count. -/
def cexHyb : RiceSample :=
  { filename := "LF18-1_x.count", shortname := "LF18-1", tissue := 'L', ind := "F18",
    rep := "1", label := "F1", P1 := "CS48", P2 := "18", family := FamilyId.num 18,
    header := ["g1"], data := [7], working := true }

/-- A merged database holding the recurrent parent and the hybrid of family 18
but no Parent2 record (no key `('L', "18")`). -/
def cexDB : DB := [(('L', "CS48"), [cexP1]), (('L', "F18"), [cexHyb])]

/-- The artifacts the family phase writes for `cexDB`. -/
def cexFam : FamilyOut :=
  { key := "L-F18", samples := [cexP1, cexHyb], groups := [1, 3],
    matrix := ["Gene\tLCS48-1\tLF18-1", "g1\t5\t7"], groupsLine := "1,3" }

/-- Parsed hybrid replicate with the maximal `int32` count. -/
def ovA : RiceSample :=
  { filename := "LF18-1_a.count", shortname := "LF18-1", tissue := 'L', ind := "F18",
    rep := "1", label := "F1", P1 := "CS48", P2 := "18", family := FamilyId.num 18,
    header := ["g1"], data := [2147483647], working := true }

/-- Parsed hybrid replicate with count one, mergeable with `ovA`. -/
def ovB : RiceSample :=
  { filename := "LF18-1_b.count", shortname := "LF18-1", tissue := 'L', ind := "F18",
    rep := "1", label := "F1", P1 := "CS48", P2 := "18", family := FamilyId.num 18,
    header := ["g1"], data := [1], working := true }

/-- Parsed hybrid replicate with count three. -/
def smA : RiceSample :=
  { filename := "LF18-1_c.count", shortname := "LF18-1", tissue := 'L', ind := "F18",
    rep := "1", label := "F1", P1 := "CS48", P2 := "18", family := FamilyId.num 18,
    header := ["g1"], data := [3], working := true }

/-- Parsed hybrid replicate with count four, mergeable with `smA`. -/
def smB : RiceSample :=
  { filename := "LF18-1_d.count", shortname := "LF18-1", tissue := 'L', ind := "F18",
    rep := "1", label := "F1", P1 := "CS48", P2 := "18", family := FamilyId.num 18,
    header := ["g1"], data := [4], working := true }

/-- Parsed hybrid sample with two genes in order `g1, g2`. -/
def colA : RiceSample :=
  { filename := "LF18-1_a.count", shortname := "LF18-1", tissue := 'L', ind := "F18",
    rep := "1", label := "F1", P1 := "CS48", P2 := "18", family := FamilyId.num 18,
    header := ["g1", "g2"], data := [1, 2], working := true }

/-- Parsed hybrid sample of a different replicate whose genes come in the
swapped order `g2, g1`. -/
def colB : RiceSample :=
  { filename := "LF18-2_b.count", shortname := "LF18-2", tissue := 'L', ind := "F18",
    rep := "2", label := "F1", P1 := "CS48", P2 := "18", family := FamilyId.num 18,
    header := ["g2", "g1"], data := [10, 20], working := true }

/-- Parsed hybrid sample from a file whose second row carries a third,
silently dropped field. -/
def row3 : RiceSample :=
  { filename := "LF18-1_y.count", shortname := "LF18-1", tissue := 'L', ind := "F18",
    rep := "1", label := "F1", P1 := "CS48", P2 := "18", family := FamilyId.num 18,
    header := ["g1", "g2"], data := [1, 2], working := true }

/-! Claim theorems. -/

/-- C3 counterexample: two parseable, mergeable records whose counts sum past
the `int32` maximum.  The merged count is the wrapped value `-2147483648`, not
the arithmetic sum `2147483647 + 1`, so `merged.counts[i] == a.counts[i] +
b.counts[i]` fails for this pair at position 0. -/
theorem c3_counterexample :
    mkRiceSample "LF18-1_a.count" [["g1", "2147483647"]] = some ovA ∧
    mkRiceSample "LF18-1_b.count" [["g1", "1"]] = some ovB ∧
    CanMerge ovA ovB ∧ (ovA.merge ovB).2 = true ∧
    ovA.data = [2147483647] ∧ ovB.data = [1] ∧
    (ovA.merge ovB).1.data = [-2147483648] ∧
    ¬(ovA.merge ovB).1.data = [2147483647 + 1] := by
  refine ⟨rfl, rfl, by decide, by decide, rfl, rfl, by decide, by decide⟩

/-- C3 (amended): for mergeable records of equal data length, the merged count
at every gene position is the `int32`-wrapped sum of the two counts — equal to
the plain sum exactly when that sum fits in the signed 32-bit range — and the
surviving record's source paths are the first record's paths followed by the
second's. -/
theorem c3_merge_sums (a b : RiceSample) (hc : CanMerge a b)
    (hl : a.data.length = b.data.length) (i : Nat) (hi : i < a.data.length) :
    ((a.merge b).1.data).getD i 0 = wrap32 (a.data.getD i 0 + b.data.getD i 0) ∧
    (-2147483648 ≤ a.data.getD i 0 + b.data.getD i 0 →
      a.data.getD i 0 + b.data.getD i 0 < 2147483648 →
      ((a.merge b).1.data).getD i 0 = a.data.getD i 0 + b.data.getD i 0) ∧
    (a.merge b).1.filename = a.filename ++ "," ++ b.filename := by
  have h1 : ((a.merge b).1.data).getD i 0 = wrap32 (a.data.getD i 0 + b.data.getD i 0) := by
    rw [merge_data_pos hc]
    exact getD_zipWith _ a.data b.data i hi (hl ▸ hi)
  refine ⟨h1, fun hlo hhi => ?_, merge_filename a b⟩
  rw [h1, wrap32_eq_self hlo hhi]

/-- C3 witness: `c3_merge_sums` applied to the concrete mergeable pair
`smA`, `smB`, whose counts 3 and 4 sum within range. -/
theorem c3_witness :
    ((smA.merge smB).1.data).getD 0 0 = smA.data.getD 0 0 + smB.data.getD 0 0 :=
  (c3_merge_sums smA smB (by decide) (by decide) 0 (by decide)).2.1 (by decide) (by decide)

/-- C4: a merge succeeds exactly when the two records agree on tissue,
individual, replicate, role label, family id, both parent codes and gene-id
header; when any of these differ the merge reports failure (the Python
`assert` fires) and the surviving record's counts are left untouched. -/
theorem c4_merge_guard (a b : RiceSample) :
    ((a.merge b).2 = true ↔ CanMerge a b) ∧
    (¬CanMerge a b → (a.merge b).2 = false ∧ (a.merge b).1.data = a.data) := by
  refine ⟨merge_snd_iff a b, fun h => ⟨?_, merge_data_neg h⟩⟩
  rw [RiceSample.merge, if_neg h]

/-- C4 witness: `c4_merge_guard` applied to the incompatible pair `colA`,
`colB` (different replicate and header). -/
theorem c4_witness : (colA.merge colB).2 = false ∧ (colA.merge colB).1.data = colA.data :=
  (c4_merge_guard colA colB).2 (by decide)

/-- C5 counterexample: a count file whose second row has three fields parses
successfully (the extra field is silently dropped by `zip`), contradicting the
claim that any row without exactly two fields makes parsing fail. -/
theorem c5_counterexample :
    (([["g1", "1"], ["g2", "2", "x"]] : List (List String)).getD 1 []).length = 3 ∧
    parseCounts [["g1", "1"], ["g2", "2", "x"]] = some (["g1", "g2"], [1, 2]) ∧
    mkRiceSample "LF18-1_y.count" [["g1", "1"], ["g2", "2", "x"]] = some row3 := by
  refine ⟨rfl, rfl, rfl⟩

/-- C5 (amended): parsing the count rows fails exactly when the minimum field
count over the rows differs from two (so an empty file, or any row with fewer
than two fields, always fails, while extra fields beyond the second are
silently dropped when every row has at least two and some row has exactly two)
or some row's second field is not an integer. -/
theorem c5_malformed (rows : List (List String)) :
    (parseCounts rows = none ↔
      zipLen rows ≠ 2 ∨ ∃ r ∈ rows, pyInt (r.getD 1 "") = none) ∧
    (∀ r ∈ rows, r.length < 2 → parseCounts rows = none) := by
  have main : parseCounts rows = none ↔
      zipLen rows ≠ 2 ∨ ∃ r ∈ rows, pyInt (r.getD 1 "") = none := by
    rcases hz : pyZip rows with _ | ⟨a, _ | ⟨b, _ | ⟨c, t⟩⟩⟩
    · have hzl : zipLen rows = 0 := by rw [← pyZip_length, hz]; rfl
      simp [parseCounts, hz, hzl]
    · have hzl : zipLen rows = 1 := by rw [← pyZip_length, hz]; rfl
      simp [parseCounts, hz, hzl]
    · have hzl : zipLen rows = 2 := by rw [← pyZip_length, hz]; rfl
      have hform := pyZip_eq_two hzl
      rw [hz] at hform
      have hab : a = rows.map (fun r => r.getD 0 "") ∧ b = rows.map (fun r => r.getD 1 "") := by
        simpa using hform
      have hb := hab.2
      constructor
      · intro hp
        simp only [parseCounts, hz] at hp
        refine Or.inr ?_
        rcases hpi : parseInts b with _ | cnts
        · obtain ⟨s, hs, hn⟩ := (parseInts_eq_none_iff b).mp hpi
          rw [hb] at hs
          obtain ⟨r, hr, rfl⟩ := List.mem_map.mp hs
          exact ⟨r, hr, hn⟩
        · simp only [hpi] at hp
          exact Option.noConfusion hp
      · intro hor
        rcases hor with hne | ⟨r, hr, hn⟩
        · exact absurd hzl hne
        · have hnone : parseInts b = none :=
            (parseInts_eq_none_iff b).mpr ⟨r.getD 1 "", hb ▸ List.mem_map_of_mem _ hr, hn⟩
          simp [parseCounts, hz, hnone]
    · have hzl : zipLen rows = t.length + 3 := by
        rw [← pyZip_length, hz]; simp
      have hne : zipLen rows ≠ 2 := by omega
      simp [parseCounts, hz, hne]
  refine ⟨main, fun r hr hlt => ?_⟩
  refine main.mpr (Or.inl ?_)
  have hle := zipLen_le_of_mem hr
  omega

/-- C5 witness: `c5_malformed` applied to a one-field row and to a
non-integer count field. -/
theorem c5_witness :
    parseCounts [["g1"]] = none ∧ parseCounts [["g1", "x"], ["g2", "2"]] = none := by
  constructor
  · exact (c5_malformed [["g1"]]).2 ["g1"] (by simp) (by decide)
  · exact (c5_malformed [["g1", "x"], ["g2", "2"]]).1.mpr
      (Or.inr ⟨["g1", "x"], by simp, by decide⟩)

/-- C6: the classification applies its rules in source order with the first
match winning.  An individual equal to a recurrent-parent code is Parent1 with
family "Recur" (both codes begin with the hybrid marker letter C, so the order
matters); otherwise a leading F or C marks a Hybrid whose parent1 code is CS48
for F and CS66 for C, whose parent2 code is the remainder, and whose family id
is the integer parse of that remainder; any other individual is Parent2 with
family id the integer parse of the whole individual (both parses fail exactly
when the text is not an integer). -/
theorem c6_classification (ind : String) :
    ((ind = "CS48" ∨ ind = "CS66") → classify ind = some ("P1", "na", "na", FamilyId.recur)) ∧
    (∀ c rest, ind.toList = c :: rest → ¬ind = "CS48" → ¬ind = "CS66" →
      (c = 'F' ∨ c = 'C') →
      classify ind = (pyInt (String.mk rest)).map (fun n =>
        ("F1", if c = 'F' then "CS48" else "CS66", String.mk rest, FamilyId.num n))) ∧
    (∀ c rest, ind.toList = c :: rest → ¬c = 'F' → ¬c = 'C' →
      classify ind = (pyInt ind).map (fun n => ("P2", "na", "na", FamilyId.num n))) ∧
    ("CS48".toList.headD ' ' = 'C' ∧ "CS66".toList.headD ' ' = 'C') := by
  refine ⟨?_, ?_, ?_, by decide⟩
  · rintro (rfl | rfl)
    · exact classify_CS48
    · exact classify_CS66
  · intro c rest hcs h48 h66 hfc
    simp only [classify, hcs]
    rw [if_neg (by tauto), if_pos hfc]
    cases hpi : pyInt (String.mk rest) <;> simp [hpi]
  · intro c rest hcs hcF hcC
    have h48 : ¬ind = "CS48" := by
      rintro rfl
      have h' : ('C' :: ['S', '4', '8'] : List Char) = c :: rest := hcs
      injection h' with h1 _
      exact hcC h1.symm
    have h66 : ¬ind = "CS66" := by
      rintro rfl
      have h' : ('C' :: ['S', '6', '6'] : List Char) = c :: rest := hcs
      injection h' with h1 _
      exact hcC h1.symm
    simp only [classify, hcs]
    rw [if_neg (by tauto), if_neg (by tauto)]
    cases hpi : pyInt ind <;> simp [hpi]

/-- C6 witness: `c6_classification` applied to the three concrete individuals
"CS48" (Parent1 even though it begins with C), "F18" (Hybrid of CS48 and
family 18) and "18" (Parent2 of family 18). -/
theorem c6_witness :
    classify "CS48" = some ("P1", "na", "na", FamilyId.recur) ∧
    classify "F18" = some ("F1", "CS48", "18", FamilyId.num 18) ∧
    classify "18" = some ("P2", "na", "na", FamilyId.num 18) := by
  refine ⟨(c6_classification "CS48").1 (Or.inl rfl), ?_, ?_⟩
  · have h := (c6_classification "F18").2.1 'F' ['1', '8'] rfl (by decide) (by decide)
      (Or.inl rfl)
    rw [h]; rfl
  · have h := (c6_classification "18").2.2.1 '1' ['8'] rfl (by decide) (by decide)
    rw [h]; rfl

/-- C8: merge order does not affect the summed counts — merging b into a and
merging a into b yield the same data vector — while the reported source paths
keep the order of the surviving record first. -/
theorem c8_merge_comm (a b : RiceSample) (h : CanMerge a b) :
    (a.merge b).1.data = (b.merge a).1.data ∧
    (a.merge b).1.filename = a.filename ++ "," ++ b.filename ∧
    (b.merge a).1.filename = b.filename ++ "," ++ a.filename := by
  refine ⟨?_, merge_filename a b, merge_filename b a⟩
  rw [merge_data_pos h, merge_data_pos (canMerge_symm h), zipWith_wrapAdd_comm]

/-- C8 witness: `c8_merge_comm` applied to the concrete mergeable pair
`smA`, `smB`. -/
theorem c8_witness : (smA.merge smB).1.data = (smB.merge smA).1.data :=
  (c8_merge_comm smA smB (by decide)).1

/-- C9: merge is not atomic on error — the surviving record's filename is
extended with the absorbed record's path unconditionally, before any
consistency check, so after a failed merge the filename already holds both
paths while the counts are unchanged. -/
theorem c9_merge_nonatomic (a b : RiceSample) :
    (a.merge b).1.filename = a.filename ++ "," ++ b.filename ∧
    ((a.merge b).2 = false → (a.merge b).1.data = a.data) := by
  refine ⟨merge_filename a b, fun hf => ?_⟩
  apply merge_data_neg
  intro hc
  rw [RiceSample.merge, if_pos hc] at hf
  exact Bool.noConfusion hf

/-- C9 witness: `c9_merge_nonatomic` applied to the failing pair `colA`,
`colB`: the filename holds both paths, the data is untouched. -/
theorem c9_witness :
    (colA.merge colB).1.filename = colA.filename ++ "," ++ colB.filename ∧
    (colA.merge colB).1.data = colA.data := by
  have h := c9_merge_nonatomic colA colB
  exact ⟨h.1, h.2 (by decide)⟩

/-- C10: parsing a count file with zero rows fails (the tuple unpack of the
empty `zip` raises), and every successfully parsed record has at least one
gene and as many counts as gene ids. -/
theorem c10_parse_nonempty :
    (∀ f, mkRiceSample f [] = none) ∧
    (∀ f rows s, mkRiceSample f rows = some s →
      1 ≤ s.header.length ∧ s.header.length = s.data.length) := by
  refine ⟨mkRiceSample_nil, ?_⟩
  intro f rows s h
  obtain ⟨⟨h', d'⟩, hpc, hh, hdd⟩ := mkRiceSample_some_inv h
  obtain ⟨-, -, hhl, hdl⟩ := parseCounts_some_inv hpc
  cases rows with
  | nil => rw [parseCounts_nil] at hpc; exact Option.noConfusion hpc
  | cons r rs =>
    constructor
    · rw [hh]
      simp only [hhl, List.length_cons]
      omega
    · rw [hh, hdd]
      simp only [hhl, hdl]

/-- C10 witness: `c10_parse_nonempty` applied to an empty file and to the
concrete parse of `LCS48-1_x.count`. -/
theorem c10_witness :
    mkRiceSample "LF18-1_x.count" [] = none ∧
    (1 ≤ cexP1.header.length ∧ cexP1.header.length = cexP1.data.length) :=
  ⟨c10_parse_nonempty.1 "LF18-1_x.count",
   c10_parse_nonempty.2 "LCS48-1_x.count" [["g1", "5"]] cexP1 rfl⟩

/-- C1 counterexample: a run holding the recurrent parent and the hybrid of
family 18 but no record for parent2 code "18" in tissue L.  The family phase
reports no error and still produces the family's output files: the matrix and
groups artifacts exist, with the Parent2 columns simply absent (the
`defaultdict` lookup yields an empty list).  This contradicts the claim that
the family yields no output files and a missing-parent error. -/
theorem c1_counterexample :
    mkRiceSample "LCS48-1_x.count" [["g1", "5"]] = some cexP1 ∧
    mkRiceSample "LF18-1_x.count" [["g1", "7"]] = some cexHyb ∧
    cexHyb.label = "F1" ∧ cexHyb.P2 = "18" ∧
    lookupDB cexDB ('L', "18") = [] ∧
    familyPhase cexDB = [cexFam] ∧
    cexFam.key = "L-F18" ∧ ¬cexFam.matrix = [] ∧ ¬cexFam.groupsLine = "" := by
  refine ⟨rfl, rfl, rfl, rfl, rfl, rfl, rfl, by decide, by decide⟩

/-- C1 (amended): when a hybrid group's parent lookup finds no records, the
family is not skipped and no error is raised: the family phase still emits the
family's artifacts, with the missing parent contributing zero sample columns
and zero labels, and every other group processed as usual. -/
theorem c1_missing_parent (db : DB) (t : Char) (i : String) (r0 : RiceSample)
    (rest : List RiceSample) (hmem : ((t, i), r0 :: rest) ∈ db) (hlab : r0.label = "F1")
    (hmiss : lookupDB db (t, r0.P2) = []) :
    ∃ fo ∈ familyPhase db,
      fo.key = t.toString ++ "-" ++ i ∧
      fo.samples = lookupDB db (t, r0.P1) ++ (r0 :: rest) ∧
      fo.groups = List.replicate (lookupDB db (t, r0.P1)).length 1 ++
        List.replicate (rest.length + 1) 3 := by
  refine ⟨{ key := t.toString ++ "-" ++ i,
            samples := lookupDB db (t, r0.P1) ++ (r0 :: rest),
            groups := List.replicate (lookupDB db (t, r0.P1)).length 1 ++
              List.replicate (rest.length + 1) 3,
            matrix := mergeCountsLines (lookupDB db (t, r0.P1) ++ (r0 :: rest)),
            groupsLine := joinSep ","
              ((List.replicate (lookupDB db (t, r0.P1)).length 1 ++
                List.replicate (rest.length + 1) 3).map (fun g => toString g)) },
          List.mem_filterMap.mpr ⟨((t, i), r0 :: rest), hmem, ?_⟩, rfl, rfl, rfl⟩
  simp [familyStep, hlab, hmiss]

/-- C1 witness: `c1_missing_parent` applied to the concrete database `cexDB`
with the Parent2 group of family 18 missing. -/
theorem c1_witness :
    ∃ fo ∈ familyPhase cexDB,
      fo.key = "L-F18" ∧ fo.samples = [cexP1, cexHyb] ∧ fo.groups = [1, 3] := by
  obtain ⟨fo, hmem, hkey, hsamp, hgr⟩ :=
    c1_missing_parent cexDB 'L' "F18" cexHyb [] (by decide) (by decide) (by decide)
  exact ⟨fo, hmem, by rw [hkey]; rfl, by rw [hsamp]; rfl, by rw [hgr]; rfl⟩

/-- C2 counterexample: two parsed samples of one family whose gene orderings
differ.  `merge_counts` raises no error and writes the matrix anyway, pairing
row "g1" with colB's first count 10 — which is colB's count for gene "g2" —
so the matrix is produced with misaligned columns, contradicting the claimed
ColumnMismatch failure. -/
theorem c2_counterexample :
    mkRiceSample "LF18-1_a.count" [["g1", "1"], ["g2", "2"]] = some colA ∧
    mkRiceSample "LF18-2_b.count" [["g2", "10"], ["g1", "20"]] = some colB ∧
    ¬colA.header = colB.header ∧
    mergeCountsLines [colA, colB] = ["Gene\tLF18-1\tLF18-2", "g1\t1\t10", "g2\t2\t20"] ∧
    colB.header.getD 0 "" = "g2" ∧ colB.data.getD 0 0 = 10 := by
  refine ⟨rfl, rfl, by decide, rfl, rfl, rfl⟩

/-- C2 (amended): `merge_counts` performs no gene-id consistency check at all.
For any sample list whose count vectors have the first sample's header length,
it always writes one header line plus one line per gene of the first sample,
and the line for position i pairs the first sample's i-th gene id with every
sample's i-th count positionally, whether or not the samples' gene orderings
agree. -/
theorem c2_no_column_check (s0 : RiceSample) (rest : List RiceSample)
    (hlen : ∀ s ∈ s0 :: rest, s.data.length = s0.header.length) :
    (mergeCountsLines (s0 :: rest)).length = s0.header.length + 1 ∧
    ∀ i, i < s0.header.length →
      (mergeCountsLines (s0 :: rest)).getD (i + 1) "" =
        joinSep "\t" (s0.header.getD i "" ::
          (s0 :: rest).map (fun s => toString (s.data.getD i 0))) := by
  have hcols : ∀ c ∈ (s0.header :: (s0 :: rest).map (fun s => s.data.map (fun v => toString v))),
      c.length = s0.header.length := by
    intro c hc
    rcases List.mem_cons.mp hc with rfl | hc'
    · rfl
    · obtain ⟨s, hs, rfl⟩ := List.mem_map.mp hc'
      rw [List.length_map]
      exact hlen s hs
  have hzl : zipLen (s0.header :: (s0 :: rest).map (fun s => s.data.map (fun v => toString v)))
      = s0.header.length := zipLen_const (by simp) hcols
  have hmc : mergeCountsLines (s0 :: rest) =
      joinSep "\t" ("Gene" :: (s0 :: rest).map (fun s => s.shortname)) ::
      (pyZip (s0.header :: (s0 :: rest).map (fun s => s.data.map (fun v => toString v)))).map
        (fun r => joinSep "\t" r) := rfl
  constructor
  · rw [hmc, List.length_cons, List.length_map, pyZip_length, hzl]
  · intro i hi
    rw [hmc, List.getD_cons_succ, pyZip, hzl, List.map_map,
      List.getD_eq_getElem?_getD, List.getElem?_map, List.getElem?_range hi]
    simp only [Option.map_some', Option.getD_some, Function.comp]
    congr 1
    simp only [List.map_cons, List.map_map]
    rw [getD_map_toString s0.data i (by rw [hlen s0 (List.mem_cons_self _ _)]; exact hi)]
    congr 1
    congr 1
    apply List.map_congr_left
    intro s hs
    simp only [Function.comp]
    exact getD_map_toString s.data i (by rw [hlen s (List.mem_cons_of_mem _ hs)]; exact hi)

/-- C2 witness: `c2_no_column_check` applied to the mismatched pair `colA`,
`colB`: output is written, with row 1 pairing colA's first gene with each
sample's first count. -/
theorem c2_witness :
    (mergeCountsLines [colA, colB]).length = colA.header.length + 1 ∧
    (mergeCountsLines [colA, colB]).getD 1 "" =
      joinSep "\t" (colA.header.getD 0 "" ::
        [colA, colB].map (fun s => toString (s.data.getD 0 0))) := by
  have h := c2_no_column_check colA [colB] (by decide)
  exact ⟨h.1, h.2 0 (by decide)⟩

/-- C7: every family group the family phase produces has exactly as many
labels as samples; the samples decompose into the Parent1 block, the Parent2
block and the Hybrid block, labelled 1, 2 and 3 respectively; hence the label
sequence is a non-decreasing sequence over 1..3 matching the sample-list
segmentation. -/
theorem c7_group_labels (db : DB) (hdb : wfDB db) (fo : FamilyOut)
    (hfo : fo ∈ familyPhase db) :
    fo.groups.length = fo.samples.length ∧
    (∃ p1 p2 hy, fo.samples = p1 ++ p2 ++ hy ∧
      fo.groups = List.replicate p1.length 1 ++ List.replicate p2.length 2 ++
        List.replicate hy.length 3 ∧
      (∀ s ∈ p1, s.label = "P1") ∧ (∀ s ∈ p2, s.label = "P2") ∧
      (∀ s ∈ hy, s.label = "F1")) ∧
    List.Sorted (fun x y => x ≤ y) fo.groups ∧
    (∀ g ∈ fo.groups, g = 1 ∨ g = 2 ∨ g = 3) := by
  obtain ⟨e, he, hstep⟩ := List.mem_filterMap.mp hfo
  obtain ⟨⟨t, i⟩, r⟩ := e
  cases r with
  | nil => exact absurd hstep (by simp [familyStep])
  | cons r0 rest =>
    simp only [familyStep] at hstep
    split at hstep
    · rename_i hlab
      obtain rfl := (Option.some.injEq _ _).mp hstep
      obtain ⟨hr0t, hr0i, hr0c⟩ := hdb _ he r0 (List.mem_cons_self _ _)
      rw [hlab] at hr0c
      obtain ⟨hP1mem, n, hP2int, hfam⟩ := classify_F1_inv hr0c
      refine ⟨?_, ⟨lookupDB db (t, r0.P1), lookupDB db (t, r0.P2), r0 :: rest, rfl, rfl,
        ?_, ?_, ?_⟩, ?_, ?_⟩
      · simp
      · intro s hs
        obtain ⟨e', he', hk, hse⟩ := lookupDB_mem hs
        obtain ⟨hst, hsi, hsc⟩ := hdb e' he' s hse
        rw [hk] at hsi
        rcases hP1mem with h48 | h66
        · rw [hsi, h48, classify_CS48] at hsc
          simp only [Option.some.injEq, Prod.mk.injEq] at hsc
          exact hsc.1.symm
        · rw [hsi, h66, classify_CS66] at hsc
          simp only [Option.some.injEq, Prod.mk.injEq] at hsc
          exact hsc.1.symm
      · intro s hs
        obtain ⟨e', he', hk, hse⟩ := lookupDB_mem hs
        obtain ⟨hst, hsi, hsc⟩ := hdb e' he' s hse
        rw [hk] at hsi
        rw [hsi, classify_P2_of_pyInt hP2int] at hsc
        simp only [Option.some.injEq, Prod.mk.injEq] at hsc
        exact hsc.1.symm
      · intro s hs
        obtain ⟨hst, hsi, hsc⟩ := hdb _ he s hs
        rw [hsi] at hsc
        rw [hr0i] at hr0c
        rw [hr0c] at hsc
        simp only [Option.some.injEq, Prod.mk.injEq] at hsc
        exact hsc.1.symm
      · exact sorted_groups _ _ _
      · intro g hg
        rcases List.mem_append.mp hg with h' | h'
        · rcases List.mem_append.mp h' with h'' | h''
          · exact Or.inl (List.eq_of_mem_replicate h'')
          · exact Or.inr (Or.inl (List.eq_of_mem_replicate h''))
        · exact Or.inr (Or.inr (List.eq_of_mem_replicate h'))
    · exact Option.noConfusion hstep

/-- C7 witness: `c7_group_labels` applied to the concrete database `cexDB`
and its family group. -/
theorem c7_witness :
    cexFam.groups.length = cexFam.samples.length ∧
    List.Sorted (fun x y => x ≤ y) cexFam.groups := by
  have h := c7_group_labels cexDB (by unfold wfDB; decide) cexFam (by decide)
  exact ⟨h.1, h.2.2.1⟩

end Heterosis
